/-
Verification of the PII detection-and-redaction core.

The JavaScript/TypeScript sources are shallowly embedded: JS strings are
modeled as lists of characters (`Str`), so `s.slice(a, b)` becomes
`(s.drop a).take (b - a)`, `s.slice(0, a)` becomes `s.take a`, and
`s.slice(b)` becomes `s.drop b` (both clamp out-of-range indices, as in JS).
JS numbers are `Nat`/`Int` (with explicit 32-bit wrapping where the source
relies on it) and confidences are `Rat`.  `Record<string, number>` objects
are association lists where an assignment prepends a (shadowing) binding.
-/
import Mathlib

set_option maxRecDepth 4000

/-- JS strings as lists of UTF-16 units (characters, for the ASCII inputs used here). -/
abbrev Str := List Char

/-- The `PIIEntity` record of the edge function (supabase/functions/process-pii).
`end_` embeds the source field `end`, which is a reserved word in Lean. -/
structure PIIEntity where
  type : String
  text : Str
  start : Nat
  end_ : Nat
  confidence : Rat
  category : String
deriving DecidableEq

/-! ### Small string helpers shared by several embedded functions -/

/-- Padding used by `String.prototype.padStart(n, c)`. -/
def padStartList (n : Nat) (c : Char) (s : Str) : Str :=
  List.replicate (n - s.length) c ++ s

/-- Decimal digits of `n`, least significant first; fuel-driven so that it
reduces definitionally. -/
def toDecRevAux : Nat → Nat → List Char
  | 0, _ => []
  | fuel + 1, n =>
    if n < 10 then [Char.ofNat (('0').toNat + n)]
    else Char.ofNat (('0').toNat + n % 10) :: toDecRevAux fuel (n / 10)

/-- `n.toString()` for a JS number holding a natural. -/
def natToStr (n : Nat) : Str :=
  (toDecRevAux (n + 1) n).reverse

/-- Hexadecimal digit character, lowercase, as produced by `toString(16)`. -/
def hexDigitChar (n : Nat) : Char :=
  if n < 10 then Char.ofNat (('0').toNat + n) else Char.ofNat (('a').toNat + (n - 10))

/-- Hex digits of `n`, least significant first; fuel-driven so that it
reduces definitionally. -/
def toHexRevAux : Nat → Nat → List Char
  | 0, _ => []
  | fuel + 1, n =>
    if n < 16 then [hexDigitChar n]
    else hexDigitChar (n % 16) :: toHexRevAux fuel (n / 16)

/-- `n.toString(16)` for a JS number holding a natural. -/
def natToHex (n : Nat) : Str :=
  (toHexRevAux (n + 1) n).reverse

/-! ### Credit-card checksum validator (src/utils/ocrProcessor, `isValidCreditCard`) -/

/-- One step of the source's Luhn loop: state is `(sum, isEven)`, scanning
digits from the rightmost (the source iterates `i` downward; here we fold
over the reversed digit list). -/
def luhnStep (acc : Nat × Bool) (c : Char) : Nat × Bool :=
  let digit := c.toNat - ('0').toNat
  let digit := if acc.2 then (if digit * 2 > 9 then digit * 2 - 9 else digit * 2) else digit
  (acc.1 + digit, !acc.2)

/-- `isValidCreditCard` from the OCR processor module: strip non-digits,
reject lengths outside [13,19], then the alternating-doubling checksum. -/
def isValidCreditCard (number : Str) : Bool :=
  let cleaned := number.filter Char.isDigit
  if cleaned.length < 13 || cleaned.length > 19 then false
  else
    let sum := (cleaned.reverse.foldl luhnStep (0, false)).1
    sum % 10 == 0

/-- Modelled from the spec's words for comparison: the Luhn sum obtained by
doubling every second digit from the rightmost (subtracting 9 from doubled
values above 9) and summing.  Input: digit values, rightmost first. -/
def luhnSpecSum : List Nat → Nat
  | [] => 0
  | [d] => d
  | d1 :: d2 :: rest =>
    d1 + (if d2 * 2 > 9 then d2 * 2 - 9 else d2 * 2) + luhnSpecSum rest

/-- Digit values of a string after stripping non-digits, rightmost first. -/
def digitValuesRev (s : Str) : List Nat :=
  ((s.filter Char.isDigit).reverse).map (fun c => c.toNat - ('0').toNat)

/-! ### Cryptographic-hash replacement (edge function, `generateCryptographicHash`) -/

/-- JS `ToInt32` conversion (the effect of `hash & hash` / `<<` in the source). -/
def toInt32 (n : Int) : Int :=
  (n + 2 ^ 31) % 2 ^ 32 - 2 ^ 31

/-- One character step of the hash loop:
`hash = ((hash << 5) - hash) + char; hash = hash & hash`. -/
def hashStep (hash : Int) (c : Char) : Int :=
  toInt32 (toInt32 (hash * 32) - hash + (c.toNat : Int))

/-- `generateCryptographicHash(text, entityType)` from the edge function:
a 32-bit rolling hash rendered as `[HASH_<TYPE>_<8 uppercase hex digits>]`. -/
def generateCryptographicHash (text : Str) (entityType : String) : Str :=
  let hash := text.foldl hashStep 0
  let hashStr := ((padStartList 8 ('0') (natToHex hash.natAbs)).take 8).map Char.toUpper
  ('[') :: ("HASH_").toList ++ entityType.toList ++ ('_') :: hashStr ++ [(']')]

/-! ### Redaction engine (edge function, `applyRedaction` and its strategy helpers) -/

/-- Splitting a JS string on a separator character (`String.prototype.split`). -/
def splitChar (sep : Char) (s : Str) : List Str :=
  match s with
  | [] => [[]]
  | c :: rest =>
    let parts := splitChar sep rest
    if c = sep then [] :: parts
    else match parts with
      | [] => [[c]]
      | p :: ps => (c :: p) :: ps

/-- `Array.prototype.join(sep)` for a list of strings. -/
def joinStr (sep : Str) : List Str → Str
  | [] => []
  | [p] => p
  | p :: ps => p ++ sep ++ joinStr sep ps

/-- `text.slice(-4)`: the last four characters (whole string when shorter). -/
def lastFour (s : Str) : Str := s.drop (s.length - 4)

/-- `applyContextualMasking(entity)` from the edge function.  JS indexing of a
possibly-empty token (`names[0][0]`) is modeled with `take 1`; the missing
`domain` of a split without `@` is modeled by the JS coercion of `undefined`. -/
def applyContextualMasking (entity : PIIEntity) : Str :=
  let text := entity.text
  match entity.type with
  | "EMAIL_ADDRESS" =>
    let parts := splitChar ('@') text
    let user := parts.getD 0 []
    let domain := parts.getD 1 (("undefined").toList)
    let maskedUser :=
      if user.length > 2 then
        user.take 1 ++ List.replicate (user.length - 2) ('█') ++ user.drop (user.length - 1)
      else List.replicate user.length ('█')
    maskedUser ++ ('@') :: domain
  | "SSN" => if text.contains ('-') then ("XXX-XX-").toList ++ lastFour text
             else ("XXX XX ").toList ++ lastFour text
  | "SSN_ALTERNATIVE" => if text.contains ('-') then ("XXX-XX-").toList ++ lastFour text
                         else ("XXX XX ").toList ++ lastFour text
  | "PHONE_NUMBER" =>
    if text.contains ('(') then ("(XXX) XXX-").toList ++ lastFour text
    else if text.contains ('+') then
      ("+XX ").toList ++ List.replicate (text.length - 6) ('X') ++ (' ') :: lastFour text
    else ("XXX-XXX-").toList ++ lastFour text
  | "INTERNATIONAL_PHONE" =>
    if text.contains ('(') then ("(XXX) XXX-").toList ++ lastFour text
    else if text.contains ('+') then
      ("+XX ").toList ++ List.replicate (text.length - 6) ('X') ++ (' ') :: lastFour text
    else ("XXX-XXX-").toList ++ lastFour text
  | "CREDIT_CARD" => ("XXXX-XXXX-XXXX-").toList ++ lastFour text
  | "ADDRESS" =>
    let parts := splitChar (' ') text
    ("XXX ").toList ++ joinStr [(' ')] (parts.drop 1)
  | "PERSON" =>
    let names := splitChar (' ') text
    if names.length = 2 then
      (names.getD 0 []).take 1 ++ List.replicate ((names.getD 0 []).length - 1) ('█') ++
        (' ') :: (names.getD 1 []).take 1 ++ List.replicate ((names.getD 1 []).length - 1) ('█')
    else joinStr [(' ')] (names.map (fun n => n.take 1 ++ List.replicate (n.length - 1) ('█')))
  | "FULL_NAME" =>
    let names := splitChar (' ') text
    if names.length = 2 then
      (names.getD 0 []).take 1 ++ List.replicate ((names.getD 0 []).length - 1) ('█') ++
        (' ') :: (names.getD 1 []).take 1 ++ List.replicate ((names.getD 1 []).length - 1) ('█')
    else joinStr [(' ')] (names.map (fun n => n.take 1 ++ List.replicate (n.length - 1) ('█')))
  | "IP_ADDRESS" =>
    let ipParts := splitChar ('.') text
    joinStr [('.')] (ipParts.take 2) ++ (".XXX.XXX").toList
  | _ => List.replicate (min text.length 12) ('█')

/-- The synthetic-data tables of `generateSyntheticData`. -/
def syntheticData : List (String × List Str) :=
  [("PERSON",
    [("John Smith").toList, ("Jane Doe").toList, ("Michael Johnson").toList,
     ("Sarah Wilson").toList, ("David Brown").toList, ("Lisa Garcia").toList,
     ("Robert Miller").toList, ("Emily Davis").toList, ("William Anderson").toList,
     ("Jessica Moore").toList, ("James Taylor").toList, ("Ashley Thomas").toList]),
   ("FULL_NAME",
    [("John Smith").toList, ("Jane Doe").toList, ("Michael Johnson").toList,
     ("Sarah Wilson").toList]),
   ("EMAIL_ADDRESS",
    [("user@example.com").toList, ("contact@company.org").toList,
     ("info@business.net").toList, ("admin@enterprise.com").toList,
     ("support@service.co").toList, ("hello@startup.io").toList]),
   ("PHONE_NUMBER",
    [("(555) 123-4567").toList, ("(555) 987-6543").toList, ("(555) 456-7890").toList,
     ("(555) 321-9876").toList, ("(555) 654-3210").toList, ("(555) 789-0123").toList]),
   ("ADDRESS",
    [("123 Main Street").toList, ("456 Oak Avenue").toList, ("789 Pine Road").toList,
     ("321 Elm Drive").toList, ("654 Maple Lane").toList, ("987 Cedar Court").toList]),
   ("SSN", [("123-45-6789").toList, ("987-65-4321").toList, ("456-78-9012").toList]),
   ("CREDIT_CARD",
    [("4111111111111111").toList, ("5555555555554444").toList, ("378282246310005").toList]),
   ("IP_ADDRESS",
    [("192.168.1.100").toList, ("10.0.0.50").toList, ("172.16.0.200").toList])]

/-- `generateSyntheticData(entityType, entityNum)` from the edge function. -/
def generateSyntheticData (entityType : String) (entityNum : Nat) : Str :=
  let options := (((syntheticData.find? (fun p => p.1 = entityType)).map Prod.snd)).getD
    [("[SYNTHETIC_DATA]").toList]
  options.getD (entityNum % options.length) []

/-- `applyPartialVisibility(entity)` from the edge function. -/
def applyPartialVisibility (entity : PIIEntity) : Str :=
  let text := entity.text
  match entity.type with
  | "EMAIL_ADDRESS" =>
    let parts := splitChar ('@') text
    let user := parts.getD 0 []
    let domain := parts.getD 1 (("undefined").toList)
    user.take 2 ++ ("***@").toList ++ domain
  | "PHONE_NUMBER" => ("***-***-").toList ++ lastFour text
  | "PERSON" =>
    let names := splitChar (' ') text
    names.getD 0 [] ++ (' ') ::
      joinStr [(' ')] ((names.drop 1).map (fun n => n.take 1 ++ ("***").toList))
  | "FULL_NAME" =>
    let names := splitChar (' ') text
    names.getD 0 [] ++ (' ') ::
      joinStr [(' ')] ((names.drop 1).map (fun n => n.take 1 ++ ("***").toList))
  | "ADDRESS" =>
    let parts := splitChar (' ') text
    ("*** ").toList ++ joinStr [(' ')] (parts.drop (parts.length - 2))
  | _ => text.take 2 ++ ("***").toList ++ text.drop (text.length - 2)

/-- The per-type occurrence counters (`entityCounts: Record<string, number>`).
An assignment prepends a shadowing binding; a read takes the newest one. -/
abbrev Counts := List (String × Nat)

/-- `entityCounts[t] || 0`. -/
def countsGet (counts : Counts) (t : String) : Nat :=
  (((counts.find? (fun p => p.1 = t)).map Prod.snd)).getD 0

/-- `entityCounts[t] = n`. -/
def countsSet (counts : Counts) (t : String) (n : Nat) : Counts :=
  (t, n) :: counts

/-- The `switch (method)` of `applyRedaction`, computing the replacement for
one entity given its per-type sequence number. -/
def replacementFor (method : String) (entity : PIIEntity) (entityNum : Nat) : Str :=
  match method with
  | "Smart Placeholders" =>
    ('[') :: entity.type.toList ++ ('_') :: padStartList 2 ('0') (natToStr entityNum) ++ [(']')]
  | "Contextual Masking" => applyContextualMasking entity
  | "Synthetic Data" => generateSyntheticData entity.type entityNum
  | "Cryptographic Hash" => generateCryptographicHash entity.text entity.type
  | "Partial Visibility" => applyPartialVisibility entity
  | _ => ("[REDACTED]").toList

/-- One iteration of `applyRedaction`'s loop: bump the counter for the
entity's type, compute the replacement, and splice it into the text
(`redactedText.slice(0, start) + replacement + redactedText.slice(end)`). -/
def serverStep (method : String) (acc : Str × Counts) (entity : PIIEntity) : Str × Counts :=
  let entityNum := countsGet acc.2 entity.type + 1
  let counts := countsSet acc.2 entity.type entityNum
  let replacement := replacementFor method entity entityNum
  (acc.1.take entity.start ++ replacement ++ acc.1.drop entity.end_, counts)

/-- Ascending sort by `start` (`(a, b) => a.start - b.start`). -/
def sortAscStart (l : List PIIEntity) : List PIIEntity :=
  List.insertionSort (fun a b => a.start ≤ b.start) l

/-- Descending sort by `start` (`(a, b) => b.start - a.start`). -/
def sortDescStart (l : List PIIEntity) : List PIIEntity :=
  List.insertionSort (fun a b => b.start ≤ a.start) l

instance : IsTotal PIIEntity (fun a b => a.start ≤ b.start) :=
  ⟨fun a b => Nat.le_total a.start b.start⟩

instance : IsTrans PIIEntity (fun a b => a.start ≤ b.start) :=
  ⟨fun _ _ _ => Nat.le_trans⟩

instance : IsTotal PIIEntity (fun a b => b.start ≤ a.start) :=
  ⟨fun a b => Nat.le_total b.start a.start⟩

instance : IsTrans PIIEntity (fun a b => b.start ≤ a.start) :=
  ⟨fun _ _ _ h1 h2 => Nat.le_trans h2 h1⟩

/-- `applyRedaction(text, entities, method)` from the edge function: process
entities in descending `start` order, splicing replacements right to left. -/
def applyRedaction (text : Str) (entities : List PIIEntity) (method : String) : Str :=
  ((sortDescStart entities).foldl (serverStep method) (text, [])).1

/-- The per-type sequence numbers computed by `applyRedaction`'s loop, in
processing order (a projection of the same counter fold). -/
def seqNumbersGo (counts : Counts) : List PIIEntity → List (PIIEntity × Nat)
  | [] => []
  | e :: es =>
    let n := countsGet counts e.type + 1
    (e, n) :: seqNumbersGo (countsSet counts e.type n) es

/-- Sequence numbers `applyRedaction` assigns: descending-`start` processing
order starting from empty counters. -/
def seqNumbersDesc (entities : List PIIEntity) : List (PIIEntity × Nat) :=
  seqNumbersGo [] (sortDescStart entities)

/-- Splicing a list of already-numbered entities (used to relate
`applyRedaction` to its sequence numbering). -/
def redactWithNums (method : String) (text : Str) (pairs : List (PIIEntity × Nat)) : Str :=
  pairs.foldl (fun t p => t.take p.1.start ++ replacementFor method p.1 p.2 ++ t.drop p.1.end_) text

/-! ### Overlap filter of the server-side merger (edge function, `detectPII` lines 315-342) -/

/-- The three-clause overlap test used by both the `some` and the `findIndex`
in the filter loop (`entity` against an already-accepted `existing`). -/
def overlapsJS (entity existing : PIIEntity) : Bool :=
  (decide (entity.start ≥ existing.start) && decide (entity.start < existing.end_)) ||
  (decide (entity.end_ > existing.start) && decide (entity.end_ ≤ existing.end_)) ||
  (decide (entity.start ≤ existing.start) && decide (entity.end_ ≥ existing.end_))

/-- The body of the filter loop: push a non-overlapping candidate; otherwise
replace the first overlapping accepted entity iff the candidate's confidence
is strictly higher. -/
def filterStep (filtered : List PIIEntity) (entity : PIIEntity) : List PIIEntity :=
  if filtered.any (fun existing => overlapsJS entity existing) then
    let overlappingIndex := filtered.findIdx (fun existing => overlapsJS entity existing)
    match filtered[overlappingIndex]? with
    | some existing =>
      if entity.confidence > existing.confidence then filtered.set overlappingIndex entity
      else filtered
    | none => filtered
  else filtered ++ [entity]

/-- The dedup/overlap-resolution step of server-side `detectPII`: sort
ascending by `start`, walk with `filterStep`, and sort the result again. -/
def detectPIIFilter (entities : List PIIEntity) : List PIIEntity :=
  sortAscStart ((sortAscStart entities).foldl filterStep [])

/-- The half-open interval overlap relation of the specification:
`a.start < b.end && b.start < a.end`. -/
def SpansOverlap (a b : PIIEntity) : Prop :=
  a.start < b.end_ ∧ b.start < a.end_

/-- The interleaving of original-text gaps with replacement strings: the
shape every redaction result must have for the frame property.  Each
`(s, e, r)` contributes the untouched original segment `[pos, s)` followed
by `r`; the final segment `[pos, len)` is copied verbatim. -/
def gapsSplice (text : Str) : Nat → List (Nat × Nat × Str) → Str
  | pos, [] => text.drop pos
  | pos, (s, e, r) :: rest => (text.drop pos).take (s - pos) ++ r ++ gapsSplice text e rest

/-! ### Server request handler (edge function, `Deno.serve` body, pure core) -/

/-- The processing result assembled by the edge function handler (database
persistence and timing are external effects and are not modeled). -/
structure ServeResult where
  originalText : Str
  entities : List PIIEntity
  redactedText : Str
  totalEntities : Nat
  confidence : Rat
deriving DecidableEq

/-- The pure core of the `Deno.serve` handler.  `detect` stands for the
regex-based `detectPII` scan, whose regex engine is an external collaborator
of this embedding; the handler's own logic (the `!text` guard, redaction and
result assembly) is embedded directly.  An empty string is the only falsy
JS string, so `!text` is `text = []`. -/
def serveHandler (text : Str) (redactionMethod : String)
    (detect : Str → List PIIEntity) : Except (Nat × String) ServeResult :=
  if text = [] then Except.error (400, "Text is required")
  else
    let entities := detect text
    let redactedText := applyRedaction text entities redactionMethod
    Except.ok ⟨text, entities, redactedText, entities.length,
      if entities.length > 0 then
        (entities.map (fun e => e.confidence)).sum / (entities.length : Rat)
      else 1⟩

/-! ### Statistical person recognizer adapter (src/utils/ner, `getPersonEntities`) -/

/-- A raw token-classification output entry as produced by the NER model
(`{ entity_group, score, word, start, end }`; older model builds may use
`label` or `entity` instead of `entity_group`). -/
structure NerEnt where
  entity_group : Option String
  label : Option String
  entity : Option String
  score : Rat
  word : Str
  start : Nat
  end_ : Nat
deriving DecidableEq

/-- The consolidated person span shape returned by `getPersonEntities`. -/
structure PersonEntity where
  text : Str
  start : Nat
  end_ : Nat
  confidence : Rat
deriving DecidableEq

/-- JS `a || b` on strings: `a` unless it is missing or empty. -/
def jsOrStr (a : Option String) (b : String) : String :=
  match a with
  | some s => if s = "" then b else s
  | none => b

/-- Keep the first element for each exact `(start, end)` span key (the
`seen`-set filters in `getPersonEntities` and the Dashboard merge). -/
def firstPerSpan {α : Type} (key : α → Nat × Nat) :
    List (Nat × Nat) → List α → List α
  | _, [] => []
  | seen, p :: rest =>
    if key p ∈ seen then firstPerSpan key seen rest
    else p :: firstPerSpan key (key p :: seen) rest

/-- The `seen`-set span filter at the end of `getPersonEntities`. -/
def dedupeBySpanPE (ps : List PersonEntity) : List PersonEntity :=
  firstPerSpan (fun p => (p.start, p.end_)) [] ps

/-- Whitespace as matched by JS `\s` (the subset relevant to these inputs). -/
def isWsChar (c : Char) : Bool :=
  c = ' ' || c = '\t' || c = '\n' || c = '\r' || c.toNat = 11 || c.toNat = 12

/-- `String.prototype.trim()`. -/
def trimWs (s : Str) : Str :=
  ((s.dropWhile isWsChar).reverse.dropWhile isWsChar).reverse

/-- `getPersonEntities(text)`.  The model call itself is an external
collaborator, passed in as an already-resolved-or-rejected promise value
(`nerCall`); an exception thrown by the model load or inference surfaces as
`Except.error`.  For empty/whitespace text the source returns `[]` without
touching the model. -/
def getPersonEntities (nerCall : Except String (List NerEnt)) (text : Str) :
    Except String (List PersonEntity) :=
  if text = [] || trimWs text = [] then Except.ok []
  else
    match nerCall with
    | Except.error e => Except.error e
    | Except.ok output =>
      let persons := (output.filter (fun ent =>
          let group := (jsOrStr ent.entity_group (jsOrStr ent.label (jsOrStr ent.entity ("")))).toUpper
          group = "PER" || group = "PERSON")).map (fun ent =>
        PersonEntity.mk ent.word ent.start ent.end_ (max 0 (min 1 ent.score)))
      Except.ok (dedupeBySpanPE persons)

/-! ### Dashboard text-processing core (src/components/Dashboard, `handleTextSubmit`) -/

/-- Mapping an NER person span to the unified entity shape with
`type = 'NAME'` and thresholded risk category (Dashboard lines 104-116;
the cosmetic `id` string is not modeled). -/
def nerPersonToEntity (p : PersonEntity) : PIIEntity :=
  ⟨"NAME", p.text, p.start, p.end_, p.confidence,
    if p.confidence ≥ mkRat 9 10 then "high"
    else if p.confidence ≥ mkRat 8 10 then "medium"
    else "low"⟩

/-- The merge of regex entities and NER NAME entities: walk the concatenation
and keep only the first entity for each exact `${start}-${end}` span key
(the `mergedMap` of Dashboard lines 118-124). -/
def mergeBySpan (regexEntities nerNameEntities : List PIIEntity) : List PIIEntity :=
  firstPerSpan (fun e => (e.start, e.end_)) [] (regexEntities ++ nerNameEntities)

/-- The `nameIndexMap`: NAME entities sorted ascending by `start`, each span
mapped to its 1-based index (Dashboard lines 129-136).  Spans of merged
entities are pairwise distinct, so first-binding lookup agrees with the
source's `Map`. -/
def nameIndexMapOf (entities : List PIIEntity) : List ((Nat × Nat) × Nat) :=
  ((sortAscStart (entities.filter (fun e => e.type = "NAME"))).enum).map
    (fun p => ((p.2.start, p.2.end_), p.1 + 1))

/-- `nameIndexMap.get(key) || 1`. -/
def nameIdxGet (m : List ((Nat × Nat) × Nat)) (k : Nat × Nat) : Nat :=
  (((m.find? (fun p => p.1 = k)).map Prod.snd)).getD 1

/-- The replacement switch of the Dashboard loop.  `Tokenization` draws a
fresh random token per occurrence; the stream of random draws is the oracle
`tok` indexed by a counter threaded through the fold.  The source's
`case 'Smart Placeholders':` shares its branch with `default:`. -/
def dashReplacement (method : String) (m : List ((Nat × Nat) × Nat)) (tok : Nat → Str)
    (tokCounter : Nat) (entity : PIIEntity) : Str × Nat :=
  match method with
  | "Complete Removal" => ([], tokCounter)
  | "Tokenization" => (("TOKEN_").toList ++ tok tokCounter, tokCounter + 1)
  | "Masking" => (List.replicate (min entity.text.length 8) ('*'), tokCounter)
  | _ =>
    (if entity.type = "NAME" then
      ("[NAME_").toList ++ natToStr (nameIdxGet m (entity.start, entity.end_)) ++ [(']')]
     else ('[') :: entity.type.toList ++ [(']')], tokCounter)

/-- One iteration of the Dashboard redaction loop:
`before + replacement + after`. -/
def dashStep (method : String) (m : List ((Nat × Nat) × Nat)) (tok : Nat → Str)
    (acc : Str × Nat) (entity : PIIEntity) : Str × Nat :=
  let (replacement, c) := dashReplacement method m tok acc.2 entity
  (acc.1.take entity.start ++ replacement ++ acc.1.drop entity.end_, c)

/-- The Dashboard redaction pass (lines 127-168): precompute NAME indices in
ascending `start` order, then splice replacements in descending `start`
order. -/
def dashboardRedact (text : Str) (entities : List PIIEntity) (method : String)
    (tok : Nat → Str) : Str :=
  let m := nameIndexMapOf entities
  ((sortDescStart entities).foldl (dashStep method m tok) (text, 0)).1

/-- The pure core of `handleTextSubmit` (Dashboard lines 83-219): the
`!text.trim()` early-error, the `Promise.all` fan-in of regex and NER
detection (a rejected NER promise rejects the whole `Promise.all` and lands
in the `catch` block, which reports failure and produces no result), the
span merge, and the redaction pass. -/
def handleTextSubmitCore (text : Str) (regexEntities : List PIIEntity)
    (nerResult : Except String (List PersonEntity)) (method : String)
    (tok : Nat → Str) : Except String (List PIIEntity × Str) :=
  if trimWs text = [] then Except.error ("No Text Provided")
  else
    match nerResult with
    | Except.error _ => Except.error ("Processing Failed")
    | Except.ok nerPersons =>
      let entities := mergeBySpan regexEntities (nerPersons.map nerPersonToEntity)
      Except.ok (entities, dashboardRedact text entities method tok)

/-! ### Context-aware name filter (src/utils/ocrProcessor, `isValidPersonName`)

The source expresses its context rules as JS regexes.  They are embedded via
a small backtracking matcher over a star-free pattern language (`Pat`) whose
only iterated atoms are the whitespace classes `\s+`/`\s*`; each source
regex is transcribed into a `Pat` value below. -/

/-- JS `\w` (word character). -/
def isWordChar (c : Char) : Bool := c.isAlpha || c.isDigit || c = '_'

/-- Star-free patterns: literals, alternation, sequencing, option, character
classes, `\s+`, `\s*`, trailing `\b`, and `$`. -/
inductive Pat where
  | pfail : Pat
  | lit : Str → Pat
  | alt : Pat → Pat → Pat
  | seqP : Pat → Pat → Pat
  | opt : Pat → Pat
  | chOf : Str → Pat
  | ws1 : Pat
  | ws0 : Pat
  | wordEnd : Pat
  | eos : Pat

/-- Nondeterministic whitespace consumption: succeed on any split of a
leading whitespace run. -/
def wsCont : Str → (Str → Bool) → Bool
  | s, k =>
    k s || (match s with
            | [] => false
            | c :: rest => isWsChar c && wsCont rest k)

/-- Backtracking matcher in continuation style; `matchPat p s k` decides
whether some prefix of `s` matches `p` with the remainder accepted by `k`.
Case-insensitive source regexes are handled by lowercasing the subject
before matching (all literals below are stored lowercase). -/
def matchPat : Pat → Str → (Str → Bool) → Bool
  | .pfail, _, _ => false
  | .lit w, s, k => w.isPrefixOf s && k (s.drop w.length)
  | .alt p q, s, k => matchPat p s k || matchPat q s k
  | .seqP p q, s, k => matchPat p s (fun s1 => matchPat q s1 k)
  | .opt p, s, k => matchPat p s k || k s
  | .chOf cs, s, k =>
    match s with
    | [] => false
    | c :: rest => cs.contains c && k rest
  | .ws1, s, k =>
    match s with
    | [] => false
    | c :: rest => isWsChar c && wsCont rest k
  | .ws0, s, k => wsCont s k
  | .wordEnd, s, k =>
    (match s with
     | [] => true
     | c :: _ => !isWordChar c) && k s
  | .eos, s, k => s.isEmpty && k s

/-- Word boundary before a match position: start of string or a preceding
non-word character (all patterns searched this way begin with a word
character). -/
def boundaryBefore : Option Char → Bool
  | none => true
  | some c => !isWordChar c

/-- Search for a `\b`-anchored pattern at every position of the subject. -/
def searchWBGo (p : Pat) : Option Char → Str → Bool
  | prev, [] => boundaryBefore prev && matchPat p [] (fun _ => true)
  | prev, c :: rest =>
    (boundaryBefore prev && matchPat p (c :: rest) (fun _ => true)) || searchWBGo p (some c) rest

/-- `pattern.test(s)` for a regex of the form `/\b.../`. -/
def searchWB (p : Pat) (s : Str) : Bool := searchWBGo p none s

/-- `pattern.test(s)` for an unanchored regex (searched at every position). -/
def searchAny (p : Pat) : Str → Bool
  | [] => matchPat p [] (fun _ => true)
  | c :: rest => matchPat p (c :: rest) (fun _ => true) || searchAny p rest

/-- `pattern.test(s)` for a `^`-anchored regex. -/
def matchStart (p : Pat) (s : Str) : Bool := matchPat p s (fun _ => true)

/-- Alternation over a list of literal words. -/
def anyLit (ws : List String) : Pat :=
  ws.foldr (fun w acc => Pat.alt (Pat.lit w.toList) acc) Pat.pfail

/-- A literal word followed by an optional period (`dr\.?` etc.). -/
def litOptDot (w : String) : Pat := Pat.seqP (Pat.lit w.toList) (Pat.opt (Pat.chOf [('.')]))

/-- Two literal words separated by `\s+`. -/
def phrase (w1 w2 : String) : Pat :=
  Pat.seqP (Pat.lit w1.toList) (Pat.seqP Pat.ws1 (Pat.lit w2.toList))

/-- Alternation over a list of two-word phrases. -/
def anyPhrase (ps : List (String × String)) : Pat :=
  ps.foldr (fun p acc => Pat.alt (phrase p.1 p.2) acc) Pat.pfail

/-- Lowercasing a subject for a case-insensitive regex. -/
def lowerStr (s : Str) : Str := s.map Char.toLower

/-- `documentRejectionPatterns`, in source order. -/
def docRejectTests : List (Str → Bool) :=
  [fun s => searchWB (Pat.seqP (anyLit
      ["document", "record", "note", "notes", "form", "report", "file", "header", "title",
       "section", "chapter", "policy", "manual", "guide", "instruction"]) Pat.wordEnd)
      (lowerStr s),
   fun s => searchWB (Pat.seqP (anyPhrase
      [("library", "card"), ("book", "title"), ("return", "date"), ("due", "date"),
       ("document", "type"), ("form", "name")]) Pat.wordEnd) (lowerStr s),
   fun s => searchAny (Pat.seqP (Pat.chOf [(':')]) Pat.eos) s,
   fun s => matchStart (Pat.seqP Pat.ws0 (Pat.seqP (Pat.chOf [('-')]) Pat.ws0)) s,
   fun s => searchWB (Pat.seqP (anyLit
      ["type", "category", "classification", "status", "level", "grade", "rank", "position"])
      (Pat.seqP Pat.ws0 (Pat.seqP (Pat.chOf [(':')]) (Pat.seqP Pat.ws0 Pat.eos))))
      (lowerStr s)]

/-- `roleRejectionPatterns`, in source order. -/
def roleRejectTests : List (Str → Bool) :=
  [fun s => searchWB (Pat.seqP (anyLit
      ["employee", "staff", "worker", "manager", "director", "supervisor", "coordinator",
       "administrator", "assistant", "specialist", "analyst", "engineer", "developer",
       "designer", "consultant", "advisor", "representative", "associate", "intern",
       "volunteer", "participant", "applicant", "candidate", "recipient", "beneficiary"])
      Pat.wordEnd) (lowerStr s),
   fun s => searchWB (Pat.seqP (anyLit ["id", "number", "code", "ref", "reference"])
      Pat.wordEnd) (lowerStr s)]

/-- The honorific alternation `(?:dr\.?|mr\.?|mrs\.?|ms\.?|miss|prof\.?|doctor)`. -/
def honorificsPat : Pat :=
  (litOptDot ("dr")).alt ((litOptDot ("mr")).alt ((litOptDot ("mrs")).alt
    ((litOptDot ("ms")).alt ((Pat.lit (("miss").toList)).alt
      ((litOptDot ("prof")).alt (Pat.lit (("doctor").toList)))))))

/-- `strongAcceptancePatterns`, in source order. -/
def strongAcceptTests : List (Str → Bool) :=
  [fun s => searchWB (Pat.seqP honorificsPat (Pat.seqP Pat.ws0 Pat.eos)) (lowerStr s),
   fun s => searchWB (Pat.seqP (anyLit
      ["patient", "client", "customer", "visitor", "guest", "resident", "student", "member"])
      (Pat.seqP Pat.ws1 (Pat.seqP (Pat.opt (Pat.seqP (Pat.lit (("name").toList))
        (Pat.seqP Pat.ws0 (Pat.seqP (Pat.opt (Pat.chOf [(':'), ('.')])) Pat.ws0))))
        Pat.eos))) (lowerStr s),
   fun s => searchWB (Pat.seqP (anyPhrase
      [("signed", "by"), ("written", "by"), ("created", "by"), ("prepared", "by"),
       ("reviewed", "by"), ("approved", "by")]) (Pat.seqP Pat.ws0 Pat.eos)) (lowerStr s),
   fun s => searchWB (Pat.seqP (anyLit
      ["dear", "hello", "hi", "sincerely", "regards", "from", "to", "cc", "bcc"])
      (Pat.seqP Pat.ws0 Pat.eos)) (lowerStr s),
   fun s => searchWB (Pat.seqP (anyLit ["contact", "author", "creator", "owner", "holder"])
      (Pat.seqP Pat.ws0 (Pat.seqP (Pat.opt (Pat.chOf [(':'), ('.')]))
        (Pat.seqP Pat.ws0 Pat.eos)))) (lowerStr s)]

/-- The in-span honorific check `/^(?:Dr\.?|Mr\.?|Mrs\.?|Ms\.?|Miss|Prof\.?)\s+/i`. -/
def titleAtStart (name : Str) : Bool :=
  matchStart (Pat.seqP ((litOptDot ("dr")).alt ((litOptDot ("mr")).alt ((litOptDot ("mrs")).alt
    ((litOptDot ("ms")).alt ((Pat.lit (("miss").toList)).alt (litOptDot ("prof")))))))
    Pat.ws1) (lowerStr name)

/-- `/^[A-Z][a-z]+$/` on one name part. -/
def capLowerPart (part : Str) : Bool :=
  match part with
  | [] => false
  | c :: rest => c.isUpper && !rest.isEmpty && rest.all Char.isLower

/-- `name.trim().split(/\s+/)` on an already-trimmed subject. -/
def splitWsAux : Nat → Str → List Str
  | 0, _ => []
  | fuel + 1, s =>
    let s1 := s.dropWhile isWsChar
    match s1 with
    | [] => []
    | _ =>
      s1.takeWhile (fun c => !isWsChar c) :: splitWsAux fuel (s1.dropWhile (fun c => !isWsChar c))

/-- Split on whitespace runs. -/
def splitWs (s : Str) : List Str := splitWsAux (s.length + 1) s

/-- The curated common-first-names list of `isValidPersonName`. -/
def commonFirstNames : List Str :=
  [("emily").toList, ("sarah").toList, ("michael").toList, ("john").toList, ("jane").toList,
   ("david").toList, ("lisa").toList, ("robert").toList, ("mary").toList, ("james").toList,
   ("rajesh").toList, ("priya").toList, ("kumar").toList, ("chen").toList, ("wang").toList,
   ("singh").toList, ("patel").toList, ("johnson").toList, ("smith").toList, ("brown").toList,
   ("garcia").toList, ("miller").toList, ("davis").toList, ("rodriguez").toList,
   ("martinez").toList, ("hernandez").toList, ("lopez").toList, ("gonzalez").toList,
   ("wilson").toList, ("anderson").toList, ("thomas").toList, ("taylor").toList,
   ("moore").toList, ("jackson").toList, ("martin").toList, ("lee").toList, ("perez").toList,
   ("thompson").toList, ("white").toList, ("harris").toList, ("sanchez").toList,
   ("clark").toList, ("ramirez").toList, ("lewis").toList, ("robinson").toList,
   ("walker").toList, ("young").toList, ("allen").toList, ("king").toList, ("wright").toList,
   ("scott").toList, ("torres").toList, ("nguyen").toList, ("hill").toList,
   ("flores").toList, ("green").toList]

/-- The `beforeText` window of `isValidPersonName`. -/
def beforeTextOf (fullText : Str) (position : Nat) : Str :=
  (fullText.drop (position - 150)).take (position - (position - 150))

/-- The `afterText` window of `isValidPersonName`. -/
def afterTextOf (fullText : Str) (position : Nat) (nameLen : Nat) : Str :=
  (fullText.drop (position + nameLen)).take
    (min fullText.length (position + nameLen + 150) - (position + nameLen))

/-- `isValidPersonName(name, fullText, position)` from the OCR processor
module.  (The source also builds an unused `context` string; it is elided.)
Both branches of the final common-first-name check return `true`, exactly as
in the source. -/
def isValidPersonName (name fullText : Str) (position : Nat) : Bool :=
  let beforeText := beforeTextOf fullText position
  let afterText := afterTextOf fullText position name.length
  if docRejectTests.any (fun t => t beforeText || t afterText) then false
  else if roleRejectTests.any (fun t => t (afterText.take 50)) then false
  else if strongAcceptTests.any (fun t => t beforeText) then true
  else if titleAtStart name then true
  else
    let nameParts := splitWs (trimWs name)
    if nameParts.length < 2 || nameParts.length > 3 then false
    else if !(nameParts.all (fun part =>
        decide (part.length ≥ 2) && capLowerPart part && decide (part.length ≤ 15))) then false
    else
      let firstName := lowerStr (nameParts.headD [])
      if commonFirstNames.contains firstName then true else true

/-- Modelled from the spec's words (§4.3 rule 5): structural validity of a
candidate span — 2 or 3 whitespace-separated parts, each 2-15 characters,
each exactly one capital letter followed by lowercase letters. -/
def structuralNameSpec (name : Str) : Bool :=
  let parts := splitWs (trimWs name)
  decide (2 ≤ parts.length) && decide (parts.length ≤ 3) &&
    parts.all (fun part => decide (2 ≤ part.length) && decide (part.length ≤ 15) &&
      capLowerPart part)

/-! ### Lemmas for the credit-card validator -/

theorem luhn_fold_eq_spec :
    ∀ (ds : Str) (s0 : Nat),
      (ds.foldl luhnStep (s0, false)).1 =
        s0 + luhnSpecSum (ds.map (fun c => c.toNat - ('0').toNat))
  | [], s0 => by simp [luhnSpecSum]
  | [d], s0 => by simp [luhnStep, luhnSpecSum]
  | d1 :: d2 :: rest, s0 => by
    have ih := luhn_fold_eq_spec rest (s0 + (d1.toNat - ('0').toNat) +
      (if (d2.toNat - ('0').toNat) * 2 > 9 then (d2.toNat - ('0').toNat) * 2 - 9
       else (d2.toNat - ('0').toNat) * 2))
    simp only [List.foldl, List.map, luhnSpecSum]
    rw [show luhnStep (s0, false) d1 = (s0 + (d1.toNat - ('0').toNat), true) from rfl]
    rw [show ∀ s, luhnStep (s, true) d2 =
        (s + (if (d2.toNat - ('0').toNat) * 2 > 9 then (d2.toNat - ('0').toNat) * 2 - 9
              else (d2.toNat - ('0').toNat) * 2), false) from fun s => rfl]
    rw [ih]
    omega

/-- C8: the payment-card checksum validator strips non-digit characters,
rejects digit counts below 13 or above 19, and otherwise accepts exactly the
strings whose Luhn sum (doubling every second digit from the rightmost,
subtracting 9 from doubled values above 9, summing) is divisible by 10; in
particular `4111111111111111` is accepted and `4111111111111112` is
rejected. -/
theorem c8_luhn_validator :
    (∀ s : Str,
      isValidCreditCard s =
        (decide (13 ≤ (s.filter Char.isDigit).length) &&
         decide ((s.filter Char.isDigit).length ≤ 19) &&
         decide (luhnSpecSum (digitValuesRev s) % 10 = 0))) ∧
    isValidCreditCard (("4111111111111111").toList) = true ∧
    isValidCreditCard (("4111111111111112").toList) = false := by
  refine ⟨fun s => ?_, by decide, by decide⟩
  unfold isValidCreditCard
  dsimp only
  split
  · rename_i h
    simp only [Bool.or_eq_true, decide_eq_true_eq] at h
    rcases h with h | h
    · rw [decide_eq_false (by omega : ¬ 13 ≤ (s.filter Char.isDigit).length)]
      simp
    · rw [decide_eq_false (by omega : ¬ (s.filter Char.isDigit).length ≤ 19)]
      simp
  · rename_i h
    simp only [Bool.or_eq_true, decide_eq_true_eq, not_or] at h
    rw [luhn_fold_eq_spec]
    have h1 : 13 ≤ (s.filter Char.isDigit).length := by omega
    have h2 : (s.filter Char.isDigit).length ≤ 19 := by omega
    rw [decide_eq_true h1, decide_eq_true h2]
    simp only [Bool.true_and, Nat.zero_add, digitValuesRev, List.map_reverse]
    rfl

/-! ### Lemmas for the cryptographic-hash replacement -/

theorem toInt32_bounds (n : Int) : -(2 ^ 31) ≤ toInt32 n ∧ toInt32 n < 2 ^ 31 := by
  unfold toInt32
  constructor
  · have := Int.emod_nonneg (n + 2 ^ 31) (show (2 ^ 32 : Int) ≠ 0 by norm_num)
    omega
  · have := Int.emod_lt_of_pos (n + 2 ^ 31) (show (0 : Int) < 2 ^ 32 by norm_num)
    omega

theorem hashFold_bounds (text : Str) (h0 : Int)
    (hl : -(2 ^ 31) ≤ h0) (hr : h0 ≤ 2 ^ 31) :
    -(2 ^ 31) ≤ text.foldl hashStep h0 ∧ text.foldl hashStep h0 ≤ 2 ^ 31 := by
  induction text generalizing h0 with
  | nil => exact ⟨hl, hr⟩
  | cons c cs ih =>
    have hb := toInt32_bounds (toInt32 (h0 * 32) - h0 + (c.toNat : Int))
    exact ih (hashStep h0 c) hb.1 (by have := hb.2; unfold hashStep; omega)

theorem toHexRevAux_length_le :
    ∀ (fuel n k : Nat), 1 ≤ k → n < 16 ^ k → (toHexRevAux fuel n).length ≤ k
  | 0, _, _, _, _ => by simp [toHexRevAux]
  | fuel + 1, n, k, hk, hn => by
    unfold toHexRevAux
    split
    · simpa using hk
    · rename_i h
      simp only [List.length_cons]
      have hk2 : 2 ≤ k := by
        rcases Nat.lt_or_ge k 2 with h2 | h2
        · have hk1 : k = 1 := by omega
          subst hk1
          simp only [pow_one] at hn
          omega
        · exact h2
      have hpow : 16 ^ (k - 1) * 16 = 16 ^ k := by
        rw [← pow_succ]
        congr 1
        omega
      have hrec : (toHexRevAux fuel (n / 16)).length ≤ k - 1 :=
        toHexRevAux_length_le fuel (n / 16) (k - 1) (by omega)
          (Nat.div_lt_of_lt_mul (by omega))
      omega

theorem hexDigitChar_mem (n : Nat) (h : n < 16) :
    hexDigitChar n ∈ ("0123456789abcdef").toList := by
  interval_cases n <;> decide

theorem toHexRevAux_mem :
    ∀ (fuel n : Nat), ∀ c ∈ toHexRevAux fuel n, c ∈ ("0123456789abcdef").toList
  | 0, _ => by simp [toHexRevAux]
  | fuel + 1, n => by
    unfold toHexRevAux
    split
    · rename_i h
      intro c hc
      simp only [List.mem_singleton] at hc
      subst hc
      exact hexDigitChar_mem n h
    · intro c hc
      simp only [List.mem_cons] at hc
      rcases hc with hc | hc
      · subst hc
        exact hexDigitChar_mem (n % 16) (Nat.mod_lt n (by omega))
      · exact toHexRevAux_mem fuel (n / 16) c hc

theorem hexUpper_of_lower (c : Char)
    (h : c ∈ ("0123456789abcdef").toList) :
    Char.toUpper c ∈ ("0123456789ABCDEF").toList := by
  fin_cases h <;> decide

/-- C10: `generateCryptographicHash` is a pure function of the pair
(entity text, entity type) whose output always has the exact shape
`[HASH_<TYPE>_<H>]` with `<H>` exactly eight uppercase hexadecimal
characters; under the Cryptographic Hash strategy the per-entity replacement
ignores the occurrence counter, so equal (text, type) pairs always receive
the identical replacement token. -/
theorem c10_hash_format_deterministic :
    (∀ (text : Str) (entityType : String), ∃ h : Str,
        generateCryptographicHash text entityType =
          ('[') :: ("HASH_").toList ++ entityType.toList ++ ('_') :: h ++ [(']')] ∧
        h.length = 8 ∧ ∀ c ∈ h, c ∈ ("0123456789ABCDEF").toList) ∧
    (∀ (e1 e2 : PIIEntity) (n1 n2 : Nat), e1.text = e2.text → e1.type = e2.type →
        replacementFor ("Cryptographic Hash") e1 n1 =
          replacementFor ("Cryptographic Hash") e2 n2) := by
  constructor
  · intro text entityType
    refine ⟨((padStartList 8 ('0') (natToHex (text.foldl hashStep 0).natAbs)).take 8).map
      Char.toUpper, rfl, ?_, ?_⟩
    · have hb := hashFold_bounds text 0 (by norm_num) (by norm_num)
      have habs : (text.foldl hashStep 0).natAbs ≤ 2 ^ 31 := by omega
      have hlen : (natToHex (text.foldl hashStep 0).natAbs).length ≤ 8 := by
        unfold natToHex
        rw [List.length_reverse]
        exact toHexRevAux_length_le _ _ 8 (by omega) (by norm_num; omega)
      have hplen : (padStartList 8 ('0') (natToHex (text.foldl hashStep 0).natAbs)).length = 8 := by
        unfold padStartList
        rw [List.length_append, List.length_replicate]
        omega
      rw [List.length_map, List.length_take, hplen]
      omega
    · intro c hc
      simp only [List.mem_map] at hc
      obtain ⟨d, hd, rfl⟩ := hc
      have hd2 := List.mem_of_mem_take hd
      apply hexUpper_of_lower
      unfold padStartList at hd2
      rcases List.mem_append.1 hd2 with hd3 | hd3
      · have := List.eq_of_mem_replicate hd3
        subst this
        decide
      · unfold natToHex at hd3
        exact toHexRevAux_mem _ _ d (List.mem_reverse.1 hd3)
  · intro e1 e2 n1 n2 htext htype
    simp only [replacementFor, htext, htype]

/-- C10 witness: two occurrences of the same email value, at different
positions and occurrence numbers, receive the identical hash replacement. -/
theorem c10_hash_format_deterministic_witness :
    replacementFor ("Cryptographic Hash")
        ⟨"EMAIL_ADDRESS", ("a@b.co").toList, 0, 6, mkRat 96 100, "high"⟩ 1 =
      replacementFor ("Cryptographic Hash")
        ⟨"EMAIL_ADDRESS", ("a@b.co").toList, 11, 17, mkRat 96 100, "high"⟩ 2 :=
  c10_hash_format_deterministic.2 _ _ 1 2 rfl rfl

/-! ### Lemmas for the strategy dispatch and the boundary guards -/

theorem foldl_congr_fun {α β : Type} (l : List α) (f g : β → α → β) (b : β)
    (h : ∀ x ∈ l, ∀ acc, f acc x = g acc x) : l.foldl f b = l.foldl g b := by
  induction l generalizing b with
  | nil => rfl
  | cons x xs ih =>
    simp only [List.foldl]
    rw [h x (by simp), ih _ (fun a ha acc => h a (by simp [ha]) acc)]

theorem dashReplacement_default (method : String) (m : List ((Nat × Nat) × Nat))
    (tok : Nat → Str) (c : Nat) (e : PIIEntity)
    (h1 : method ≠ "Complete Removal") (h2 : method ≠ "Tokenization")
    (h3 : method ≠ "Masking") :
    dashReplacement method m tok c e = dashReplacement ("Smart Placeholders") m tok c e := by
  unfold dashReplacement
  split <;> simp_all

/-- C4 counterexample: invoking redaction with the unsupported strategy name
`Unsupported Strategy` does not fail; the server substitutes `[REDACTED]`
and the Dashboard redacts exactly as under `Smart Placeholders`. -/
theorem c4_unknown_strategy_cex :
    applyRedaction (("a@b.co").toList)
      [⟨"EMAIL_ADDRESS", ("a@b.co").toList, 0, 6, mkRat 96 100, "high"⟩]
      ("Unsupported Strategy") = ("[REDACTED]").toList ∧
    dashboardRedact (("a@b.co").toList)
      [⟨"EMAIL_ADDRESS", ("a@b.co").toList, 0, 6, mkRat 96 100, "high"⟩]
      ("Unsupported Strategy") (fun _ => []) =
    dashboardRedact (("a@b.co").toList)
      [⟨"EMAIL_ADDRESS", ("a@b.co").toList, 0, 6, mkRat 96 100, "high"⟩]
      ("Smart Placeholders") (fun _ => []) :=
  ⟨by decide, by decide⟩

/-- C4 (amended): a strategy name outside the supported set is not an error:
the server-side `applyRedaction` silently substitutes `[REDACTED]` for every
entity, and the Dashboard loop silently behaves exactly like
`Smart Placeholders` (its `default:` shares that branch). -/
theorem c4_unknown_strategy_fallback :
    (∀ (method : String) (e : PIIEntity) (n : Nat),
      method ∉ ["Smart Placeholders", "Contextual Masking", "Synthetic Data",
        "Cryptographic Hash", "Partial Visibility"] →
      replacementFor method e n = ("[REDACTED]").toList) ∧
    (∀ (method : String) (text : Str) (entities : List PIIEntity) (tok : Nat → Str),
      method ∉ ["Smart Placeholders", "Complete Removal", "Tokenization", "Masking"] →
      dashboardRedact text entities method tok =
        dashboardRedact text entities ("Smart Placeholders") tok) := by
  constructor
  · intro method e n hmem
    simp only [List.mem_cons, List.not_mem_nil, or_false, not_or] at hmem
    unfold replacementFor
    split <;> simp_all
  · intro method text entities tok hmem
    simp only [List.mem_cons, List.not_mem_nil, or_false, not_or] at hmem
    unfold dashboardRedact
    dsimp only
    congr 1
    apply foldl_congr_fun
    intro e _ acc
    unfold dashStep
    rw [dashReplacement_default method _ tok acc.2 e hmem.2.1 hmem.2.2.1 hmem.2.2.2]

/-- C4 witness: the fallback theorem applied to the concrete unsupported
strategy name `Bogus`. -/
theorem c4_unknown_strategy_fallback_witness :
    (("Bogus" : String) ∉ ["Smart Placeholders", "Contextual Masking", "Synthetic Data",
        "Cryptographic Hash", "Partial Visibility"]) ∧
    replacementFor ("Bogus")
      ⟨"SSN", ("123-45-6789").toList, 0, 11, mkRat 99 100, "high"⟩ 1 =
      ("[REDACTED]").toList :=
  ⟨by decide, c4_unknown_strategy_fallback.1 _ _ 1 (by decide)⟩

/-- C5 counterexample: empty input text is answered with an error at both
boundaries (HTTP 400 `Text is required` server-side; the `No Text Provided`
error toast in the Dashboard), not with a zero-entity success result. -/
theorem c5_empty_input_error_cex :
    serveHandler [] ("Smart Placeholders") (fun _ => []) =
      Except.error (400, "Text is required") ∧
    handleTextSubmitCore [] [] (Except.ok []) ("Smart Placeholders") (fun _ => []) =
      Except.error ("No Text Provided") :=
  ⟨rfl, rfl⟩

/-- C5 (amended): empty input text is rejected as an error by the handler
guards rather than processed; the pipeline only runs for nonempty text, and
redaction with an empty entity list leaves the text unchanged. -/
theorem c5_empty_input_amended :
    (∀ (method : String) (detect : Str → List PIIEntity),
      serveHandler [] method detect = Except.error (400, "Text is required")) ∧
    (∀ (text : Str) (method : String), applyRedaction text [] method = text) ∧
    (∀ (text : Str) (method : String) (detect : Str → List PIIEntity),
      text ≠ [] → ∃ r : ServeResult, serveHandler text method detect = Except.ok r) := by
  refine ⟨fun _ _ => rfl, fun _ _ => rfl, fun text method detect h => ?_⟩
  unfold serveHandler
  rw [if_neg h]
  exact ⟨_, rfl⟩

/-- C5 witness: the amended theorem applied to the one-character text `x`. -/
theorem c5_empty_input_amended_witness :
    (("x").toList ≠ ([] : Str)) ∧
    ∃ r : ServeResult,
      serveHandler (("x").toList) ("Smart Placeholders") (fun _ => []) = Except.ok r :=
  ⟨by decide, c5_empty_input_amended.2.2 _ _ _ (by decide)⟩

/-- C6 counterexample: when the NER call rejects, the Dashboard pipeline
reports `Processing Failed` and returns no result at all — the pattern-based
entities passed in are discarded rather than returned. -/
theorem c6_ner_failure_cex :
    handleTextSubmitCore (("Call Bob at a@b.co").toList)
      [⟨"EMAIL_ADDRESS", ("a@b.co").toList, 12, 18, mkRat 98 100, "high"⟩]
      (Except.error ("model unavailable")) ("Smart Placeholders") (fun _ => []) =
      Except.error ("Processing Failed") := rfl

/-- C6 (amended): a rejected NER call rejects the whole `Promise.all`, so the
Dashboard `catch` block discards every result (pattern-based entities
included) and reports failure; `getPersonEntities` avoids the model only for
empty or whitespace-only text, where it returns an empty span list. -/
theorem c6_ner_failure_amended :
    (∀ (text : Str) (regexEntities : List PIIEntity) (err method : String)
        (tok : Nat → Str), trimWs text ≠ [] →
      handleTextSubmitCore text regexEntities (Except.error err) method tok =
        Except.error ("Processing Failed")) ∧
    (∀ (nerCall : Except String (List NerEnt)) (text : Str),
      text = [] ∨ trimWs text = [] →
      getPersonEntities nerCall text = Except.ok []) := by
  constructor
  · intro text r err method tok h
    unfold handleTextSubmitCore
    rw [if_neg h]
  · intro nerCall text h
    unfold getPersonEntities
    rw [if_pos (by rcases h with h | h <;> simp [h])]

/-- C6 witness: the amended theorem applied at a concrete nonempty text with
a failing model call, and at a whitespace-only text. -/
theorem c6_ner_failure_amended_witness :
    (trimWs (("hi Bob").toList) ≠ []) ∧
    handleTextSubmitCore (("hi Bob").toList) [] (Except.error ("load failure"))
      ("Smart Placeholders") (fun _ => []) = Except.error ("Processing Failed") ∧
    getPersonEntities (Except.error ("load failure")) (("  ").toList) = Except.ok [] :=
  ⟨by decide, c6_ner_failure_amended.1 _ _ _ _ _ (by decide),
   c6_ner_failure_amended.2 _ _ (Or.inr (by decide))⟩

/-! ### Lemmas for the server-side overlap filter -/

theorem spansOverlap_symm {a b : PIIEntity} (h : SpansOverlap a b) : SpansOverlap b a :=
  ⟨h.2, h.1⟩

theorem overlapsJS_iff (a b : PIIEntity) (ha : a.start < a.end_) (hb : b.start < b.end_) :
    overlapsJS a b = true ↔ SpansOverlap a b := by
  unfold overlapsJS SpansOverlap
  simp only [Bool.or_eq_true, Bool.and_eq_true, decide_eq_true_eq]
  omega

theorem overlap_unique (acc : List PIIEntity) (c : PIIEntity)
    (hpw : acc.Pairwise (fun a b => ¬ SpansOverlap a b))
    (hstart : ∀ a ∈ acc, a.start ≤ c.start) :
    ∀ (i j : Nat) (hi : i < acc.length) (hj : j < acc.length),
      SpansOverlap c acc[i] → SpansOverlap c acc[j] → i = j := by
  have key : ∀ (i j : Nat) (hi : i < acc.length) (hj : j < acc.length), i < j →
      SpansOverlap c acc[i] → SpansOverlap c acc[j] → False := by
    intro i j hi hj hij hoi hoj
    have hnov := List.pairwise_iff_getElem.1 hpw i j hi hj hij
    have hsi := hstart acc[i] (List.getElem_mem hi)
    have hsj := hstart acc[j] (List.getElem_mem hj)
    unfold SpansOverlap at hnov hoi hoj
    omega
  intro i j hi hj hoi hoj
  rcases Nat.lt_trichotomy i j with h | h | h
  · exact (key i j hi hj h hoi hoj).elim
  · exact h
  · exact ((key j i hj hi h hoj hoi).elim)

theorem filterStep_mem (acc : List PIIEntity) (c : PIIEntity) :
    ∀ x ∈ filterStep acc c, x ∈ acc ∨ x = c := by
  unfold filterStep
  split
  · dsimp only
    split
    · split
      · intro x hx
        exact List.mem_or_eq_of_mem_set hx
      · intro x hx
        exact Or.inl hx
    · intro x hx
      exact Or.inl hx
  · intro x hx
    rcases List.mem_append.1 hx with h | h
    · exact Or.inl h
    · simp only [List.mem_singleton] at h
      exact Or.inr h

theorem filterStep_pairwise (acc : List PIIEntity) (c : PIIEntity)
    (hpw : acc.Pairwise (fun a b => ¬ SpansOverlap a b))
    (hne : ∀ a ∈ acc, a.start < a.end_) (hc : c.start < c.end_)
    (hstart : ∀ a ∈ acc, a.start ≤ c.start) :
    (filterStep acc c).Pairwise (fun a b => ¬ SpansOverlap a b) := by
  unfold filterStep
  split
  · rename_i hany
    have hex : ∃ x ∈ acc, overlapsJS c x = true := by
      simpa [List.any_eq_true] using hany
    have hlt : acc.findIdx (fun existing => overlapsJS c existing) < acc.length :=
      List.findIdx_lt_length_of_exists hex
    have hov_idx : SpansOverlap c acc[acc.findIdx (fun existing => overlapsJS c existing)] := by
      have hp : overlapsJS c acc[acc.findIdx (fun existing => overlapsJS c existing)] = true :=
        List.findIdx_getElem
      exact (overlapsJS_iff c _ hc (hne _ (List.getElem_mem hlt))).1 hp
    dsimp only
    split
    · rename_i existing heq
      have hsome := (List.getElem?_eq_some_iff.1 heq)
      obtain ⟨hlen, hex_eq⟩ := hsome
      split
      · rw [List.pairwise_iff_getElem]
        intro i j hi hj hij
        rw [List.length_set] at hi hj
        rw [List.getElem_set, List.getElem_set]
        by_cases e1 : acc.findIdx (fun existing => overlapsJS c existing) = i <;>
          by_cases e2 : acc.findIdx (fun existing => overlapsJS c existing) = j
        · omega
        · rw [if_pos e1, if_neg e2]
          exact fun hov => e2 (overlap_unique acc c hpw hstart _ j hlt hj hov_idx hov)
        · rw [if_neg e1, if_pos e2]
          exact fun hov =>
            e1 (overlap_unique acc c hpw hstart _ i hlt hi hov_idx (spansOverlap_symm hov))
        · rw [if_neg e1, if_neg e2]
          exact List.pairwise_iff_getElem.1 hpw i j hi hj hij
      · exact hpw
    · exact hpw
  · rename_i hany
    have hnov : ∀ x ∈ acc, ¬ SpansOverlap c x := by
      intro x hx hov
      apply hany
      rw [List.any_eq_true]
      exact ⟨x, hx, (overlapsJS_iff c x hc (hne x hx)).2 hov⟩
    rw [List.pairwise_append]
    refine ⟨hpw, List.pairwise_singleton _ _, ?_⟩
    intro a ha b hb
    simp only [List.mem_singleton] at hb
    subst hb
    exact fun hov => hnov a ha (spansOverlap_symm hov)

theorem filterFold_invariant :
    ∀ (cands acc : List PIIEntity),
      (∀ e ∈ cands, e.start < e.end_) → (∀ a ∈ acc, a.start < a.end_) →
      acc.Pairwise (fun a b => ¬ SpansOverlap a b) →
      cands.Pairwise (fun a b => a.start ≤ b.start) →
      (∀ a ∈ acc, ∀ e ∈ cands, a.start ≤ e.start) →
      (cands.foldl filterStep acc).Pairwise (fun a b => ¬ SpansOverlap a b) ∧
      (∀ x ∈ cands.foldl filterStep acc, x.start < x.end_)
  | [], acc => fun _ hne hpw _ _ => ⟨hpw, hne⟩
  | c :: cs, acc => by
    intro hcne hne hpw hsorted hstart
    have hc : c.start < c.end_ := hcne c (by simp)
    have hstartc : ∀ a ∈ acc, a.start ≤ c.start := fun a ha => hstart a ha c (by simp)
    have hmem := filterStep_mem acc c
    have hne2 : ∀ a ∈ filterStep acc c, a.start < a.end_ := by
      intro a ha
      rcases hmem a ha with h | h
      · exact hne a h
      · subst h
        exact hc
    have hpw2 := filterStep_pairwise acc c hpw hne hc hstartc
    have hsorted2 := List.Pairwise.of_cons hsorted
    have hheadle : ∀ e ∈ cs, c.start ≤ e.start :=
      fun e he => List.rel_of_pairwise_cons hsorted he
    have hstart2 : ∀ a ∈ filterStep acc c, ∀ e ∈ cs, a.start ≤ e.start := by
      intro a ha e he
      rcases hmem a ha with h | h
      · exact hstart a h e (by simp [he])
      · subst h
        exact hheadle e he
    exact filterFold_invariant cs (filterStep acc c)
      (fun e he => hcne e (by simp [he])) hne2 hpw2 hsorted2 hstart2

/-- C1 (amended): the server-side overlap filter of `detectPII` establishes
the invariant — for any two entities `a`, `b` of its result with
`a.start < b.start`, `a.end ≤ b.start` (no overlap, no containment).  The
Dashboard merge gives no such guarantee: it de-duplicates exact spans only
and can retain two overlapping entities with distinct spans (see the
counterexample). -/
theorem c1_server_filter_non_overlap (entities : List PIIEntity)
    (hne : ∀ e ∈ entities, e.start < e.end_) :
    ∀ a ∈ detectPIIFilter entities, ∀ b ∈ detectPIIFilter entities,
      a.start < b.start → a.end_ ≤ b.start := by
  have hsorted : (sortAscStart entities).Pairwise (fun a b => a.start ≤ b.start) :=
    List.sorted_insertionSort _ entities
  have hperm : List.Perm (sortAscStart entities) entities :=
    List.perm_insertionSort _ entities
  have hne1 : ∀ e ∈ sortAscStart entities, e.start < e.end_ :=
    fun e he => hne e (hperm.subset he)
  obtain ⟨hpw, hne2⟩ := filterFold_invariant (sortAscStart entities) [] hne1
    (by simp) (by simp) hsorted (by simp)
  have hperm2 : List.Perm (detectPIIFilter entities)
      ((sortAscStart entities).foldl filterStep []) :=
    List.perm_insertionSort _ _
  have hsymm : ∀ {x y : PIIEntity}, ¬ SpansOverlap x y → ¬ SpansOverlap y x :=
    fun h hov => h (spansOverlap_symm hov)
  have hpw2 : (detectPIIFilter entities).Pairwise (fun a b => ¬ SpansOverlap a b) :=
    (hperm2.pairwise_iff hsymm).2 hpw
  have hne3 : ∀ e ∈ detectPIIFilter entities, e.start < e.end_ :=
    fun e he => hne2 e (hperm2.subset he)
  have hall := List.Pairwise.forall
    (fun x y (h : ¬ SpansOverlap x y) hov => h (spansOverlap_symm hov)) hpw2
  intro a ha b hb hab
  have hne_ab : a ≠ b := fun h => by
    subst h
    omega
  have hnov := hall ha hb hne_ab
  have ha2 := hne3 a ha
  have hb2 := hne3 b hb
  unfold SpansOverlap at hnov
  omega

/-- C1 witness: the filter applied to two overlapping name candidates keeps
one of them, and the result satisfies the non-overlap invariant. -/
theorem c1_server_filter_non_overlap_witness :
    (∀ e ∈ [(⟨"PERSON", ("Ann Lee Wong").toList, 0, 10, mkRat 85 100, "high"⟩ : PIIEntity),
            ⟨"FULL_NAME", ("Lee Wong").toList, 5, 12, mkRat 88 100, "high"⟩],
       e.start < e.end_) ∧
    (∀ a ∈ detectPIIFilter
            [⟨"PERSON", ("Ann Lee Wong").toList, 0, 10, mkRat 85 100, "high"⟩,
             ⟨"FULL_NAME", ("Lee Wong").toList, 5, 12, mkRat 88 100, "high"⟩],
       ∀ b ∈ detectPIIFilter
            [⟨"PERSON", ("Ann Lee Wong").toList, 0, 10, mkRat 85 100, "high"⟩,
             ⟨"FULL_NAME", ("Lee Wong").toList, 5, 12, mkRat 88 100, "high"⟩],
       a.start < b.start → a.end_ ≤ b.start) :=
  ⟨by decide, c1_server_filter_non_overlap _ (by decide)⟩

/-- C1 counterexample: the Dashboard merge keeps both a regex NAME over
`[0,10)` and an NER NAME over `[2,12)` (their exact-span keys differ), so
its output violates the claimed non-overlap invariant. -/
theorem c1_dashboard_merge_overlap_cex :
    (⟨"NAME", ("John Smithson").toList, 0, 10, mkRat 95 100, "high"⟩ : PIIEntity) ∈
      mergeBySpan [⟨"NAME", ("John Smithson").toList, 0, 10, mkRat 95 100, "high"⟩]
        [⟨"NAME", ("Smithson Jr").toList, 2, 12, mkRat 98 100, "high"⟩] ∧
    (⟨"NAME", ("Smithson Jr").toList, 2, 12, mkRat 98 100, "high"⟩ : PIIEntity) ∈
      mergeBySpan [⟨"NAME", ("John Smithson").toList, 0, 10, mkRat 95 100, "high"⟩]
        [⟨"NAME", ("Smithson Jr").toList, 2, 12, mkRat 98 100, "high"⟩] ∧
    ¬ (∀ a ∈ mergeBySpan [⟨"NAME", ("John Smithson").toList, 0, 10, mkRat 95 100, "high"⟩]
          [⟨"NAME", ("Smithson Jr").toList, 2, 12, mkRat 98 100, "high"⟩],
       ∀ b ∈ mergeBySpan [⟨"NAME", ("John Smithson").toList, 0, 10, mkRat 95 100, "high"⟩]
          [⟨"NAME", ("Smithson Jr").toList, 2, 12, mkRat 98 100, "high"⟩],
       a.start < b.start → a.end_ ≤ b.start) := by
  refine ⟨by decide, by decide, fun hinv => ?_⟩
  have h1 := hinv (⟨"NAME", ("John Smithson").toList, 0, 10, mkRat 95 100, "high"⟩ : PIIEntity)
    (by decide)
    (⟨"NAME", ("Smithson Jr").toList, 2, 12, mkRat 98 100, "high"⟩ : PIIEntity)
    (by decide)
  exact absurd (h1 (by decide)) (by decide)

/-! ### Lemmas for the confidence-based resolution and the span-key merge -/

theorem filterStep_semantics (acc : List PIIEntity) (c : PIIEntity)
    (hne : ∀ a ∈ acc, a.start < a.end_) (hc : c.start < c.end_) :
    ((¬ ∃ a ∈ acc, SpansOverlap c a) → filterStep acc c = acc ++ [c]) ∧
    (∀ (i : Nat) (hi : i < acc.length),
      (∀ (j : Nat) (hj : j < acc.length), j < i → ¬ SpansOverlap c acc[j]) →
      SpansOverlap c acc[i] →
      filterStep acc c =
        if c.confidence > acc[i].confidence then acc.set i c else acc) := by
  constructor
  · intro hnov
    unfold filterStep
    rw [if_neg]
    intro hany
    rw [List.any_eq_true] at hany
    obtain ⟨x, hx, hxov⟩ := hany
    exact hnov ⟨x, hx, (overlapsJS_iff c x hc (hne x hx)).1 hxov⟩
  · intro i hi hprev hov
    unfold filterStep
    have hany : acc.any (fun existing => overlapsJS c existing) = true := by
      rw [List.any_eq_true]
      exact ⟨acc[i], List.getElem_mem hi,
        (overlapsJS_iff c _ hc (hne _ (List.getElem_mem hi))).2 hov⟩
    rw [if_pos hany]
    dsimp only
    have hidx : acc.findIdx (fun existing => overlapsJS c existing) = i := by
      rw [List.findIdx_eq hi]
      refine ⟨(overlapsJS_iff c _ hc (hne _ (List.getElem_mem hi))).2 hov, ?_⟩
      intro j hji
      have hj : j < acc.length := Nat.lt_trans hji hi
      refine Bool.eq_false_iff.2 (fun htrue => ?_)
      exact hprev j hj hji ((overlapsJS_iff c _ hc (hne _ (List.getElem_mem hj))).1 htrue)
    rw [hidx, List.getElem?_eq_getElem hi]

theorem firstPerSpan_keys {α : Type} (key : α → Nat × Nat) :
    ∀ (seen : List (Nat × Nat)) (l : List α),
      ((firstPerSpan key seen l).map key).Nodup ∧
      (∀ x ∈ firstPerSpan key seen l, x ∈ l ∧ key x ∉ seen)
  | seen, [] => by simp [firstPerSpan]
  | seen, p :: rest => by
    unfold firstPerSpan
    split
    · rename_i hmem
      obtain ⟨h1, h2⟩ := firstPerSpan_keys key seen rest
      exact ⟨h1, fun x hx => ⟨List.mem_cons_of_mem _ (h2 x hx).1, (h2 x hx).2⟩⟩
    · rename_i hmem
      obtain ⟨h1, h2⟩ := firstPerSpan_keys key (key p :: seen) rest
      constructor
      · rw [List.map_cons, List.nodup_cons]
        refine ⟨fun hk => ?_, h1⟩
        obtain ⟨x, hx, hkey⟩ := List.mem_map.1 hk
        have hnot := (h2 x hx).2
        rw [hkey] at hnot
        exact hnot (List.mem_cons_self _ _)
      · intro x hx
        rcases List.mem_cons.1 hx with h | h
        · subst h
          exact ⟨List.mem_cons_self _ _, hmem⟩
        · have hx2 := h2 x h
          exact ⟨List.mem_cons_of_mem _ hx2.1,
            fun hs => hx2.2 (List.mem_cons_of_mem _ hs)⟩

theorem firstPerSpan_append {α : Type} (key : α → Nat × Nat) :
    ∀ (l1 : List α) (seen : List (Nat × Nat)) (l2 : List α),
      ∃ seen2 : List (Nat × Nat),
        firstPerSpan key seen (l1 ++ l2) =
          firstPerSpan key seen l1 ++ firstPerSpan key seen2 l2 ∧
        (∀ a ∈ l1, key a ∈ seen2) ∧ (∀ k ∈ seen, k ∈ seen2)
  | [], seen, l2 => ⟨seen, rfl, by simp, fun _ hk => hk⟩
  | p :: l1, seen, l2 => by
    rw [List.cons_append]
    simp only [firstPerSpan]
    by_cases hmem : key p ∈ seen
    · rw [if_pos hmem, if_pos hmem]
      obtain ⟨seen2, heq, hkeys, hsub⟩ := firstPerSpan_append key l1 seen l2
      refine ⟨seen2, ?_, ?_, hsub⟩
      · exact heq
      intro a ha
      rcases List.mem_cons.1 ha with h | h
      · subst h
        exact hsub _ hmem
      · exact hkeys a h
    · rw [if_neg hmem, if_neg hmem]
      obtain ⟨seen2, heq, hkeys, hsub⟩ := firstPerSpan_append key l1 (key p :: seen) l2
      refine ⟨seen2, ?_, ?_, ?_⟩
      · rw [heq, List.cons_append]
      · intro a ha
        rcases List.mem_cons.1 ha with h | h
        · subst h
          exact hsub _ (List.mem_cons_self _ _)
        · exact hkeys a h
      · exact fun k hk => hsub _ (List.mem_cons_of_mem _ hk)

/-- C7 (amended): in the server-side filter, a candidate overlapping an
already-accepted entity (at the first overlapping index, under the half-open
test) replaces it exactly when its confidence is strictly higher — equal
confidences keep the earlier-accepted entity, since the guard is a strict
`>`.  The Dashboard merge collapses identical `(start, end)` spans so each
span occurs once and is redacted once, but it keeps the first-inserted
(pattern-based) entity for a shared span regardless of confidence: an NER
entity survives only if no regex entity has its exact span. -/
theorem c7_merge_resolution :
    (∀ (acc : List PIIEntity) (c : PIIEntity),
      (∀ a ∈ acc, a.start < a.end_) → c.start < c.end_ →
      ((¬ ∃ a ∈ acc, SpansOverlap c a) → filterStep acc c = acc ++ [c]) ∧
      (∀ (i : Nat) (hi : i < acc.length),
        (∀ (j : Nat) (hj : j < acc.length), j < i → ¬ SpansOverlap c acc[j]) →
        SpansOverlap c acc[i] →
        filterStep acc c =
          if c.confidence > acc[i].confidence then acc.set i c else acc)) ∧
    (∀ regexEntities nerNameEntities : List PIIEntity,
      ((mergeBySpan regexEntities nerNameEntities).map (fun e => (e.start, e.end_))).Nodup ∧
      (∀ e ∈ mergeBySpan regexEntities nerNameEntities,
        e ∈ regexEntities ∨ e ∈ nerNameEntities) ∧
      (∀ b ∈ mergeBySpan regexEntities nerNameEntities, b ∉ regexEntities →
        ∀ a ∈ regexEntities, (a.start, a.end_) ≠ (b.start, b.end_))) := by
  constructor
  · exact fun acc c hne hc => filterStep_semantics acc c hne hc
  · intro regexEntities nerNameEntities
    refine ⟨(firstPerSpan_keys _ [] _).1, ?_, ?_⟩
    · intro e he
      have := ((firstPerSpan_keys _ [] _).2 e he).1
      exact (List.mem_append.1 this).imp id id
    · intro b hb hbreg a ha
      obtain ⟨seen2, heq, hkeys, _⟩ :=
        firstPerSpan_append (fun e : PIIEntity => (e.start, e.end_)) regexEntities []
          nerNameEntities
      unfold mergeBySpan at hb
      rw [heq] at hb
      rcases List.mem_append.1 hb with h | h
      · exact absurd ((firstPerSpan_keys _ [] _).2 b h).1 hbreg
      · have hkb := ((firstPerSpan_keys _ seen2 _).2 b h).2
        intro hkey
        exact hkb (hkey ▸ hkeys a ha)

/-- C7 witness: a strictly-higher-confidence candidate overlapping the single
accepted entity replaces it in the filter. -/
theorem c7_merge_resolution_witness :
    filterStep [⟨"PERSON", ("Ann Lee").toList, 0, 7, mkRat 85 100, "high"⟩]
        ⟨"FULL_NAME", ("Ann Lee Barr").toList, 0, 12, mkRat 88 100, "high"⟩ =
      [⟨"FULL_NAME", ("Ann Lee Barr").toList, 0, 12, mkRat 88 100, "high"⟩] := by
  have h := (c7_merge_resolution.1
      [⟨"PERSON", ("Ann Lee").toList, 0, 7, mkRat 85 100, "high"⟩]
      ⟨"FULL_NAME", ("Ann Lee Barr").toList, 0, 12, mkRat 88 100, "high"⟩
      (by decide) (by decide)).2 0 (by decide)
      (fun j hj hji => absurd hji (by omega)) ⟨by decide, by decide⟩
  rw [if_pos (by decide)] at h
  simpa using h

/-- C7 counterexample: for identical spans from the pattern source and the
model source, the Dashboard merge keeps the pattern entity even though the
model entity's confidence is strictly higher — the higher-confidence entity
is not the one kept. -/
theorem c7_dashboard_confidence_ignored_cex :
    mergeBySpan [⟨"FULL_NAME", ("John Smith").toList, 0, 10, mkRat 88 100, "high"⟩]
        [⟨"NAME", ("John Smith").toList, 0, 10, mkRat 99 100, "high"⟩] =
      [⟨"FULL_NAME", ("John Smith").toList, 0, 10, mkRat 88 100, "high"⟩] ∧
    mkRat 88 100 < mkRat 99 100 :=
  ⟨by decide, by decide⟩

/-! ### Lemmas for the per-type sequence numbering -/

theorem countsGet_set_self (counts : Counts) (t : String) (n : Nat) :
    countsGet (countsSet counts t n) t = n := by
  simp [countsGet, countsSet, List.find?]

theorem countsGet_set_other (counts : Counts) (t t' : String) (n : Nat) (h : t ≠ t') :
    countsGet (countsSet counts t n) t' = countsGet counts t' := by
  simp only [countsGet, countsSet, List.find?]
  rw [decide_eq_false h]

theorem seqGo_mem :
    ∀ (s : List PIIEntity) (counts : Counts) (e : PIIEntity) (n : Nat),
      (e, n) ∈ seqNumbersGo counts s → e ∈ s
  | [], _, _, _ => by simp [seqNumbersGo]
  | x :: xs, counts, e, n => by
    simp only [seqNumbersGo, List.mem_cons, Prod.mk.injEq]
    rintro (⟨rfl, rfl⟩ | h)
    · simp
    · exact Or.inr (seqGo_mem xs _ e n h)

theorem seqGo_spec :
    ∀ (s : List PIIEntity) (counts : Counts),
      s.Pairwise (fun a b => b.start ≤ a.start) →
      s.Pairwise (fun a b => a.type = b.type → a.start ≠ b.start) →
      ∀ (e : PIIEntity) (n : Nat), (e, n) ∈ seqNumbersGo counts s →
        n = countsGet counts e.type +
          s.countP (fun x => x.type == e.type && decide (e.start < x.start)) + 1
  | [], _, _, _, _, _ => by simp [seqNumbersGo]
  | x :: xs, counts, hdesc, hdist, e, n => by
    simp only [seqNumbersGo, List.mem_cons, Prod.mk.injEq]
    rintro (⟨rfl, rfl⟩ | h)
    · rw [List.countP_cons]
      have hx : (e.type == e.type && decide (e.start < e.start)) = false := by
        simp
      rw [hx, if_neg (by simp)]
      have hzero : xs.countP (fun y => y.type == e.type && decide (e.start < y.start)) = 0 := by
        rw [List.countP_eq_zero]
        intro y hy
        have hle := List.rel_of_pairwise_cons hdesc hy
        simp only [Bool.and_eq_true, decide_eq_true_eq, not_and]
        omega
      omega
    · have hmem := seqGo_mem xs _ e n h
      have ih := seqGo_spec xs (countsSet counts x.type (countsGet counts x.type + 1))
        (List.Pairwise.of_cons hdesc) (List.Pairwise.of_cons hdist) e n h
      rw [List.countP_cons]
      by_cases ht : x.type = e.type
      · have hget : countsGet (countsSet counts x.type (countsGet counts x.type + 1)) e.type =
            countsGet counts e.type + 1 := by
          rw [← ht, countsGet_set_self]
        rw [hget] at ih
        have hxp : (x.type == e.type && decide (e.start < x.start)) = true := by
          have hle := List.rel_of_pairwise_cons hdesc hmem
          have hne := List.rel_of_pairwise_cons hdist hmem ht
          simp only [Bool.and_eq_true, beq_iff_eq, decide_eq_true_eq]
          exact ⟨ht, by omega⟩
        rw [hxp, if_pos rfl]
        omega
      · have hget : countsGet (countsSet counts x.type (countsGet counts x.type + 1)) e.type =
            countsGet counts e.type :=
          countsGet_set_other _ _ _ _ ht
        rw [hget] at ih
        have hxp : (x.type == e.type && decide (e.start < x.start)) = false := by
          simp only [Bool.and_eq_false_iff, beq_eq_false_iff_ne, ne_eq]
          exact Or.inl ht
        rw [hxp, if_neg (by simp)]
        omega

theorem applyRedaction_eq_redactWithNums_go :
    ∀ (s : List PIIEntity) (counts : Counts) (t : Str) (m : String),
      (s.foldl (serverStep m) (t, counts)).1 = redactWithNums m t (seqNumbersGo counts s)
  | [], _, _, _ => rfl
  | e :: es, counts, t, m => by
    simp only [List.foldl, seqNumbersGo, redactWithNums]
    exact applyRedaction_eq_redactWithNums_go es _ _ m

/-- C2 counterexample: for two email entities the redaction engine numbers
the later-starting email 1 and the earlier one 2, so the earlier email's
placeholder is `[EMAIL_ADDRESS_02]`, not `[EMAIL_ADDRESS_01]` as claimed. -/
theorem c2_earlier_email_numbered_two_cex :
    applyRedaction (("a@b.co and c@d.co").toList)
      [⟨"EMAIL_ADDRESS", ("a@b.co").toList, 0, 6, mkRat 96 100, "high"⟩,
       ⟨"EMAIL_ADDRESS", ("c@d.co").toList, 11, 17, mkRat 96 100, "high"⟩]
      ("Smart Placeholders") = ("[EMAIL_ADDRESS_02] and [EMAIL_ADDRESS_01]").toList ∧
    ¬ applyRedaction (("a@b.co and c@d.co").toList)
      [⟨"EMAIL_ADDRESS", ("a@b.co").toList, 0, 6, mkRat 96 100, "high"⟩,
       ⟨"EMAIL_ADDRESS", ("c@d.co").toList, 11, 17, mkRat 96 100, "high"⟩]
      ("Smart Placeholders") = ("[EMAIL_ADDRESS_01] and [EMAIL_ADDRESS_02]").toList :=
  ⟨by decide, by decide⟩

/-- C2 (amended): the Smart-Placeholders sequence numbers are assigned by the
right-to-left rewrite itself, in descending `start` order: an entity's
number is 1 plus the count of same-typed entities starting strictly after
it, so the entity with the k-th largest start within its type gets number k
(1-based), emitted zero-padded as `[<TYPE>_<seq>]`.  In particular the
earlier of two emails is numbered 2 and the later 1. -/
theorem c2_smart_placeholder_numbering :
    (∀ (text : Str) (entities : List PIIEntity) (method : String),
      applyRedaction text entities method =
        redactWithNums method text (seqNumbersDesc entities)) ∧
    (∀ entities : List PIIEntity,
      entities.Pairwise (fun a b => a.type = b.type → a.start ≠ b.start) →
      ∀ (e : PIIEntity) (n : Nat), (e, n) ∈ seqNumbersDesc entities →
        n = entities.countP (fun x => x.type == e.type && decide (e.start < x.start)) + 1) ∧
    applyRedaction (("a@b.co and c@d.co").toList)
      [⟨"EMAIL_ADDRESS", ("a@b.co").toList, 0, 6, mkRat 96 100, "high"⟩,
       ⟨"EMAIL_ADDRESS", ("c@d.co").toList, 11, 17, mkRat 96 100, "high"⟩]
      ("Smart Placeholders") = ("[EMAIL_ADDRESS_02] and [EMAIL_ADDRESS_01]").toList := by
  refine ⟨?_, ?_, by decide⟩
  · intro text entities method
    exact applyRedaction_eq_redactWithNums_go (sortDescStart entities) [] text method
  · intro entities hdist e n hmem
    have hdesc : (sortDescStart entities).Pairwise (fun a b => b.start ≤ a.start) :=
      List.sorted_insertionSort _ entities
    have hperm : List.Perm (sortDescStart entities) entities :=
      List.perm_insertionSort _ entities
    have hdist2 : (sortDescStart entities).Pairwise
        (fun a b => a.type = b.type → a.start ≠ b.start) :=
      (hperm.pairwise_iff
        (fun {x y} (hxy : x.type = y.type → x.start ≠ y.start) hty =>
          fun hst => hxy hty.symm hst.symm)).2 hdist
    have hs := seqGo_spec (sortDescStart entities) [] hdesc hdist2 e n hmem
    rw [hperm.countP_eq] at hs
    simpa [countsGet] using hs

/-- C2 witness: the numbering theorem applied to the concrete two-email list
(the later email receives number 1, the earlier number 2). -/
theorem c2_smart_placeholder_numbering_witness :
    ([(⟨"EMAIL_ADDRESS", ("a@b.co").toList, 0, 6, mkRat 96 100, "high"⟩ : PIIEntity),
      ⟨"EMAIL_ADDRESS", ("c@d.co").toList, 11, 17, mkRat 96 100, "high"⟩] :
        List PIIEntity).Pairwise (fun a b => a.type = b.type → a.start ≠ b.start) ∧
    (∀ (e : PIIEntity) (n : Nat),
      (e, n) ∈ seqNumbersDesc
        [⟨"EMAIL_ADDRESS", ("a@b.co").toList, 0, 6, mkRat 96 100, "high"⟩,
         ⟨"EMAIL_ADDRESS", ("c@d.co").toList, 11, 17, mkRat 96 100, "high"⟩] →
      n = List.countP (fun x : PIIEntity => x.type == e.type && decide (e.start < x.start))
        [⟨"EMAIL_ADDRESS", ("a@b.co").toList, 0, 6, mkRat 96 100, "high"⟩,
         ⟨"EMAIL_ADDRESS", ("c@d.co").toList, 11, 17, mkRat 96 100, "high"⟩] + 1) :=
  ⟨by decide, c2_smart_placeholder_numbering.2.1 _ (by decide)⟩

/-! ### Lemmas for the redaction frame property -/

theorem orderedInsert_of_forall_not {r : PIIEntity → PIIEntity → Prop} [DecidableRel r]
    (x : PIIEntity) :
    ∀ (l : List PIIEntity), (∀ y ∈ l, ¬ r x y) → List.orderedInsert r x l = l ++ [x]
  | [], _ => rfl
  | y :: l, h => by
    rw [List.orderedInsert, if_neg (h y (by simp)), orderedInsert_of_forall_not x l
      (fun z hz => h z (by simp [hz]))]
    rfl

theorem sortDesc_eq_reverse :
    ∀ l : List PIIEntity, l.Pairwise (fun a b => a.start < b.start) →
      sortDescStart l = l.reverse
  | [], _ => rfl
  | x :: xs, h => by
    have ih := sortDesc_eq_reverse xs (List.Pairwise.of_cons h)
    unfold sortDescStart at ih ⊢
    rw [List.insertionSort, ih, List.reverse_cons]
    apply orderedInsert_of_forall_not
    intro y hy
    have := List.rel_of_pairwise_cons h (List.mem_reverse.1 hy)
    omega

theorem gapsSplice_split (T : Str) (p k : Nat) (list : List (Nat × Nat × Str))
    (hpk : p ≤ k) (hk : ∀ q ∈ list, k ≤ q.1) :
    gapsSplice T p list = (T.drop p).take (k - p) ++ gapsSplice T k list := by
  match list with
  | [] =>
    show T.drop p = (T.drop p).take (k - p) ++ T.drop k
    rw [show T.drop k = (T.drop p).drop (k - p) by
      rw [List.drop_drop]
      congr 1
      omega]
    rw [List.take_append_drop]
  | (s, e, r) :: rest =>
    have hks : k ≤ s := hk (s, e, r) (by simp)
    show (T.drop p).take (s - p) ++ r ++ gapsSplice T e rest =
      (T.drop p).take (k - p) ++ ((T.drop k).take (s - k) ++ r ++ gapsSplice T e rest)
    have hsplit : (T.drop p).take (s - p) = (T.drop p).take (k - p) ++ (T.drop k).take (s - k) := by
      rw [show s - p = (k - p) + (s - k) by omega, List.take_add, List.drop_drop]
      congr 3
      omega
    rw [hsplit]
    simp [List.append_assoc]

theorem mem_zipWith_spans :
    ∀ (xs : List PIIEntity) (rs : List Str) (q : Nat × Nat × Str),
      q ∈ List.zipWith (fun (e : PIIEntity) (r : Str) => (e.start, e.end_, r)) xs rs →
      ∃ e ∈ xs, q.1 = e.start
  | [], _, _ => by simp
  | _ :: _, [], _ => by simp
  | x :: xs, r :: rs, q => by
    simp only [List.zipWith, List.mem_cons]
    rintro (rfl | h)
    · exact ⟨x, by simp, rfl⟩
    · obtain ⟨e, he, hq⟩ := mem_zipWith_spans xs rs q h
      exact ⟨e, by simp [he], hq⟩

theorem redactFoldr_frame {σ : Type} (step : (Str × σ) → PIIEntity → (Str × σ))
    (rep : σ → PIIEntity → Str × σ)
    (hstep : ∀ (acc : Str × σ) (e : PIIEntity),
      step acc e = (acc.1.take e.start ++ (rep acc.2 e).1 ++ acc.1.drop e.end_, (rep acc.2 e).2)) :
    ∀ (l : List PIIEntity) (T : Str) (st : σ),
      l.Pairwise (fun a b => a.end_ ≤ b.start) →
      (∀ e ∈ l, e.start < e.end_ ∧ e.end_ ≤ T.length) →
      ∃ reps : List Str, reps.length = l.length ∧
        (l.foldr (fun e acc => step acc e) (T, st)).1 =
          gapsSplice T 0 (List.zipWith (fun e r => (e.start, e.end_, r)) l reps)
  | [], T, st, _, _ => ⟨[], rfl, by simp [gapsSplice]⟩
  | x :: xs, T, st, hpw, hbounds => by
    obtain ⟨reps', hlen, hrec⟩ := redactFoldr_frame step rep hstep xs T st
      (List.Pairwise.of_cons hpw) (fun e he => hbounds e (by simp [he]))
    have hx := hbounds x (by simp)
    have hafter : ∀ q ∈ List.zipWith (fun (e : PIIEntity) (r : Str) =>
        (e.start, e.end_, r)) xs reps', x.end_ ≤ q.1 := by
      intro q hq
      obtain ⟨e, he, hq1⟩ := mem_zipWith_spans xs reps' q hq
      rw [hq1]
      exact List.rel_of_pairwise_cons hpw he
    have hsplitR : (xs.foldr (fun e acc => step acc e) (T, st)).1 =
        T.take x.end_ ++ gapsSplice T x.end_
          (List.zipWith (fun e r => (e.start, e.end_, r)) xs reps') := by
      rw [hrec, gapsSplice_split T 0 x.end_ _ (by omega) hafter]
      simp
    refine ⟨(rep (xs.foldr (fun e acc => step acc e) (T, st)).2 x).1 :: reps', by simp [hlen], ?_⟩
    rw [List.foldr_cons, hstep, hsplitR]
    have hlen1 : (T.take x.end_).length = x.end_ := by
      rw [List.length_take]
      omega
    rw [List.take_append_of_le_length (by omega),
      List.drop_append_of_le_length (by omega)]
    rw [show (T.take x.end_).drop x.end_ = [] by
      apply List.drop_eq_nil_of_le
      omega]
    rw [List.take_take]
    show T.take (min x.start x.end_) ++ _ ++ ([] ++ _) = _
    rw [show min x.start x.end_ = x.start by omega, List.nil_append]
    show _ = (T.drop 0).take (x.start - 0) ++ _ ++ _
    rw [List.drop_zero, Nat.sub_zero]

/-- C3: for every text, every non-overlapping start-ascending entity list
over that text, and every strategy string (the supported five and the
default alike), the right-to-left splicing loop produces exactly an
interleaving of the original text's entity-free gap segments (copied
verbatim, in order) with per-entity replacement strings — for both the
server-side `applyRedaction` and the Dashboard redaction loop. -/
theorem c3_redaction_frame :
    (∀ (text : Str) (entities : List PIIEntity) (method : String),
      entities.Pairwise (fun a b => a.end_ ≤ b.start) →
      (∀ e ∈ entities, e.start < e.end_ ∧ e.end_ ≤ text.length) →
      ∃ reps : List Str, reps.length = entities.length ∧
        applyRedaction text entities method =
          gapsSplice text 0 (List.zipWith (fun e r => (e.start, e.end_, r)) entities reps)) ∧
    (∀ (text : Str) (entities : List PIIEntity) (method : String) (tok : Nat → Str),
      entities.Pairwise (fun a b => a.end_ ≤ b.start) →
      (∀ e ∈ entities, e.start < e.end_ ∧ e.end_ ≤ text.length) →
      ∃ reps : List Str, reps.length = entities.length ∧
        dashboardRedact text entities method tok =
          gapsSplice text 0 (List.zipWith (fun e r => (e.start, e.end_, r)) entities reps)) := by
  constructor
  · intro text entities method hpw hbounds
    have hasc : entities.Pairwise (fun a b => a.start < b.start) :=
      List.Pairwise.imp_of_mem
        (fun {a b} ha _ hab => by
          have := (hbounds a ha).1
          omega) hpw
    unfold applyRedaction
    rw [sortDesc_eq_reverse entities hasc, List.foldl_reverse]
    exact redactFoldr_frame (serverStep method)
      (fun counts e => (replacementFor method e (countsGet counts e.type + 1),
        countsSet counts e.type (countsGet counts e.type + 1)))
      (fun _ _ => rfl) entities text [] hpw hbounds
  · intro text entities method tok hpw hbounds
    have hasc : entities.Pairwise (fun a b => a.start < b.start) :=
      List.Pairwise.imp_of_mem
        (fun {a b} ha _ hab => by
          have := (hbounds a ha).1
          omega) hpw
    unfold dashboardRedact
    dsimp only
    rw [sortDesc_eq_reverse entities hasc, List.foldl_reverse]
    exact redactFoldr_frame (dashStep method (nameIndexMapOf entities) tok)
      (fun c e => dashReplacement method (nameIndexMapOf entities) tok c e)
      (fun _ _ => rfl) entities text 0 hpw hbounds

/-- C3 witness: a single-email text redacted with Smart Placeholders is the
interleaving of its untouched gap segments with one replacement. -/
theorem c3_redaction_frame_witness :
    (([⟨"EMAIL_ADDRESS", ("a@b.co").toList, 8, 14, mkRat 96 100, "high"⟩] :
        List PIIEntity).Pairwise (fun a b => a.end_ ≤ b.start)) ∧
    (∀ e ∈ [(⟨"EMAIL_ADDRESS", ("a@b.co").toList, 8, 14, mkRat 96 100, "high"⟩ : PIIEntity)],
        e.start < e.end_ ∧ e.end_ ≤ (("Contact a@b.co now").toList).length) ∧
    ∃ reps : List Str,
      reps.length = ([(⟨"EMAIL_ADDRESS", ("a@b.co").toList, 8, 14, mkRat 96 100, "high"⟩ :
          PIIEntity)] : List PIIEntity).length ∧
      applyRedaction (("Contact a@b.co now").toList)
          [⟨"EMAIL_ADDRESS", ("a@b.co").toList, 8, 14, mkRat 96 100, "high"⟩]
          ("Smart Placeholders") =
        gapsSplice (("Contact a@b.co now").toList) 0
          (List.zipWith (fun (e : PIIEntity) (r : Str) => (e.start, e.end_, r))
            [⟨"EMAIL_ADDRESS", ("a@b.co").toList, 8, 14, mkRat 96 100, "high"⟩] reps) :=
  ⟨by decide, by decide, c3_redaction_frame.1 _ _ _ (by decide) (by decide)⟩

/-- C9: the context-aware name filter is an ordered cascade — its
document-structure and role/label rejection tests veto a candidate before
any acceptance rule is consulted; the span `John Smith` in
`Document Type: John Smith` is rejected while the honorific-carrying span
`Dr. Jane Doe` in `Dr. Jane Doe will see you now` is accepted; and when no
rejection or acceptance pattern fires, the verdict is exactly structural
validity — 2 or 3 whitespace-separated parts, each 2-15 characters, each one
capital letter followed by lowercase letters. -/
theorem c9_name_filter_cascade :
    (∀ (name fullText : Str) (position : Nat),
      (docRejectTests.any (fun t => t (beforeTextOf fullText position) ||
          t (afterTextOf fullText position name.length)) = true ∨
       roleRejectTests.any (fun t =>
          t ((afterTextOf fullText position name.length).take 50)) = true) →
      isValidPersonName name fullText position = false) ∧
    isValidPersonName (("John Smith").toList) (("Document Type: John Smith").toList) 15
      = false ∧
    isValidPersonName (("Dr. Jane Doe").toList) (("Dr. Jane Doe will see you now").toList) 0
      = true ∧
    (∀ (name fullText : Str) (position : Nat),
      docRejectTests.any (fun t => t (beforeTextOf fullText position) ||
          t (afterTextOf fullText position name.length)) = false →
      roleRejectTests.any (fun t =>
          t ((afterTextOf fullText position name.length).take 50)) = false →
      strongAcceptTests.any (fun t => t (beforeTextOf fullText position)) = false →
      titleAtStart name = false →
      isValidPersonName name fullText position = structuralNameSpec name) := by
  refine ⟨?_, by decide, by decide, ?_⟩
  · intro name fullText position h
    unfold isValidPersonName
    dsimp only
    rcases h with h | h
    · rw [if_pos h]
    · by_cases hd : docRejectTests.any (fun t => t (beforeTextOf fullText position) ||
          t (afterTextOf fullText position name.length)) = true
      · rw [if_pos hd]
      · rw [if_neg hd, if_pos h]
  · intro name fullText position h1 h2 h3 h4
    unfold isValidPersonName
    dsimp only
    rw [if_neg (by simp [h1]), if_neg (by simp [h2]), if_neg (by simp [h3]),
      if_neg (by simp [h4])]
    unfold structuralNameSpec
    dsimp only
    by_cases hlen : (splitWs (trimWs name)).length < 2 ∨ (splitWs (trimWs name)).length > 3
    · rw [if_pos (by rcases hlen with h | h <;> simp [h])]
      rcases hlen with h | h
      · rw [decide_eq_false (by omega : ¬ 2 ≤ (splitWs (trimWs name)).length)]
        simp
      · rw [decide_eq_false (by omega : ¬ (splitWs (trimWs name)).length ≤ 3)]
        simp
    · rw [if_neg (by rcases Nat.lt_or_ge (splitWs (trimWs name)).length 2 with h | h <;>
        simp <;> omega)]
      rw [decide_eq_true (by omega : 2 ≤ (splitWs (trimWs name)).length),
        decide_eq_true (by omega : (splitWs (trimWs name)).length ≤ 3)]
      simp only [Bool.true_and]
      have hfg : (fun part : Str => decide (part.length ≥ 2) && capLowerPart part &&
          decide (part.length ≤ 15)) =
          (fun part : Str => decide (2 ≤ part.length) && decide (part.length ≤ 15) &&
            capLowerPart part) := by
        funext part
        cases h1 : capLowerPart part <;> cases h2 : decide (part.length ≤ 15) <;>
          cases h3 : decide (2 ≤ part.length) <;> simp_all
      rw [hfg]
      by_cases hall : (splitWs (trimWs name)).all
          (fun part => decide (2 ≤ part.length) && decide (part.length ≤ 15) &&
            capLowerPart part) = true
      · rw [hall]
        rw [if_neg (by simp [hall])]
        exact ite_self true
      · rw [Bool.eq_false_iff.2 hall, if_pos (by simp [Bool.eq_false_iff.2 hall])]

/-- C9 witness: the cascade theorem applied at a candidate where no context
pattern fires, so the filter verdict equals structural validity, which holds
for `Paul Shah`. -/
theorem c9_name_filter_cascade_witness :
    isValidPersonName (("Paul Shah").toList) (("Paul Shah").toList) 0 =
      structuralNameSpec (("Paul Shah").toList) ∧
    structuralNameSpec (("Paul Shah").toList) = true :=
  ⟨c9_name_filter_cascade.2.2.2 _ _ 0 (by decide) (by decide) (by decide) (by decide),
   by decide⟩
